import Mathlib

/-
  Verification of the YTMusic Track Enricher (src/enricher.py) against its
  natural-language specification.

  The Python program is shallowly embedded: strings become List Char, the
  mutagen tag container becomes an explicit TagState, the remote YouTube
  Music catalog becomes a Catalog record of response functions (exceptions
  raised by the collaborator are modelled with Except Unit), and the
  filesystem state seen by one scan becomes an Env record.  The embedding
  covers the ASCII fragment of Python's regular-expression character
  classes (the backslash-s, backslash-w and bracket classes used by the
  program only ever meet ASCII file names and titles in this repository);
  Python's dollar anchor is modelled as end-of-string (no trailing-newline
  file names occur).
-/

set_option maxHeartbeats 1000000

namespace Enricher

/-! ### Character classes (ASCII fragment of the regexes in enricher.py) -/

/-- The character class of a YouTube video id: a-z, A-Z, 0-9, underscore,
hyphen (the bracket class in the regex of extract_video_id, line 35). -/
def isIdChar (c : Char) : Bool :=
  c.isAlpha || c.isDigit || c == '_' || c == '-'

/-- ASCII whitespace as matched by the backslash-s class and str.split. -/
def isSpaceChar (c : Char) : Bool :=
  c == ' ' || c == '\t' || c == '\n' || c == '\r' || c == '\x0b' || c == '\x0c'

/-- An opening bracket of the annotation-stripping regex (line 43). -/
def isOpenB (c : Char) : Bool := c == '(' || c == '['

/-- A closing bracket of the annotation-stripping regex (line 43).  The
class accepts either closer, independently of which opener occurred. -/
def isCloseB (c : Char) : Bool := c == ')' || c == ']'

/-- A word character of the backslash-w class (ASCII fragment). -/
def isWordChar (c : Char) : Bool := c.isAlphanum || c == '_'

/-! ### extract_video_id (enricher.py lines 29-38)

Python: re.search of the pattern  hyphen, backslash-s-star, a group of
eleven id characters, a literal dot, m, p, 3, dollar  over the file name.
Because the pattern is anchored at the end and everything after the
whitespace star has fixed length 15, any match captures exactly the eleven
characters preceding the final ".mp3", and a match exists iff, walking
left from that group, zero or more whitespace characters are followed by a
hyphen.  The function below computes exactly that on the reversed name. -/

/-- Embedding of extract_video_id: returns the 11-character id group when
the search regex matches, and none otherwise. -/
def extract_video_id (name : List Char) : Option (List Char) :=
  let r := name.reverse
  if r.take 4 = ['3', 'p', 'm', '.'] then
    let tokr := (r.drop 4).take 11
    if tokr.length = 11 ∧ tokr.all isIdChar then
      match (r.drop 15).dropWhile isSpaceChar with
      | '-' :: _ => some tokr.reverse
      | _ => none
    else none
  else none

/-! ### normalize_title (enricher.py lines 41-45)

First substitution: re.sub of  backslash-s-star, an opener, a lazy dot-star,
a closer  with the empty string.  re.sub repeatedly removes the leftmost
match.  At a given start position the whitespace star greedily consumes the
whitespace run, the next character must be an opener, and the lazy dot-star
runs to the first closer of either kind, with the dot unable to cross a
newline.  Second substitution removes every character that is neither a
word character nor whitespace, after lowercasing.  Finally the split/join
collapses whitespace runs and trims the ends. -/

/-- Scan past the lazy dot-star of the first regex: the remainder after the
first closing bracket, or none if a newline or the end intervenes. -/
def findCloser : List Char → Option (List Char)
  | [] => none
  | c :: rest =>
    if isCloseB c then some rest
    else if c == '\n' then none
    else findCloser rest

/-- Try to match the annotation regex at the head of the list; on success
return the remainder of the list after the match. -/
def matchAt (s : List Char) : Option (List Char) :=
  match s.dropWhile isSpaceChar with
  | c :: rest => if isOpenB c then findCloser rest else none
  | [] => none

/-- Fuelled worker for the first re.sub: remove the leftmost match and
continue after it, otherwise emit one character and continue.  Each step
consumes at least one character, so fuel equal to the length suffices. -/
def stripFuel : Nat → List Char → List Char
  | 0, s => s
  | _ + 1, [] => []
  | f + 1, c :: rest =>
    match matchAt (c :: rest) with
    | some rem => stripFuel f rem
    | none => c :: stripFuel f rest

/-- Embedding of the first substitution of normalize_title. -/
def strip_annotations (s : List Char) : List Char :=
  stripFuel s.length s

/-- Embedding of the second substitution: lowercase, then keep only word
characters and whitespace. -/
def remove_punct (s : List Char) : List Char :=
  (s.map Char.toLower).filter (fun c => isWordChar c || isSpaceChar c)

/-- Python str.split with no argument: split on whitespace runs, dropping
empty pieces.  The accumulator holds the current word reversed. -/
def pySplit : List Char → List Char → List (List Char)
  | [], acc => if acc.isEmpty then [] else [acc.reverse]
  | c :: rest, acc =>
    if isSpaceChar c then
      if acc.isEmpty then pySplit rest [] else acc.reverse :: pySplit rest []
    else pySplit rest (c :: acc)

/-- Python " ".join. -/
def joinSpaces : List (List Char) → List Char
  | [] => []
  | [w] => w
  | w :: ws => w ++ ' ' :: joinSpaces ws

/-- Embedding of normalize_title. -/
def normalize_title (title : List Char) : List Char :=
  joinSpaces (pySplit (remove_punct (strip_annotations title)) [])

/-! ### The catalog collaborator and get_track_metadata (lines 48-98) -/

/-- One entry of the watch playlist: its title (the get with default empty
string) and the id of its album.  The album field of the Python dict may be
absent, an empty dict, or a dict whose id is missing or empty; all of those
make the truthiness test of album_id fail and are collapsed into none. -/
structure WatchTrack where
  title : List Char
  albumId : Option (List Char)
deriving DecidableEq

/-- A truthy watch response carrying its tracks list (a missing tracks key
yields the empty list, which the code treats the same as a falsy
response). -/
structure WatchData where
  tracks : List WatchTrack
deriving DecidableEq

/-- One entry of an album track list: optional videoId and title (the gets
on line 78 and 84, with default empty title). -/
structure AlbumTrack where
  videoId : Option (List Char)
  title : List Char
deriving DecidableEq

/-- A truthy album response carrying its ordered track list. -/
structure AlbumData where
  tracks : List AlbumTrack
deriving DecidableEq

/-- The remote catalog: each operation either raises (Except.error, caught
by the code) or returns a possibly-falsy response (none models a falsy
value). -/
structure Catalog where
  get_watch_playlist : List Char → Except Unit (Option WatchData)
  get_album : List Char → Except Unit (Option AlbumData)

/-- The result dict of get_track_metadata. -/
structure MetadataResult where
  track_number : Option Nat
  total_tracks : Option Nat
deriving DecidableEq

/-- The exact-id pass (lines 77-80): the 1-based position of the first
album entry whose videoId equals the queried id. -/
def idPassFrom (vid : List Char) : Nat → List AlbumTrack → Option Nat
  | _, [] => none
  | idx, tr :: rest =>
    if tr.videoId = some vid then some idx else idPassFrom vid (idx + 1) rest

/-- Python substring containment: pat occurs contiguously in s (the
in operator on str).  An empty pattern occurs in every string. -/
def startsWith? : List Char → List Char → Bool
  | [], _ => true
  | _ :: _, [] => false
  | p :: ps, c :: cs => p == c && startsWith? ps cs

/-- strContains s pat holds when pat is a contiguous substring of s. -/
def strContains (s pat : List Char) : Bool :=
  startsWith? pat s ||
    match s with
    | [] => false
    | _ :: rest => strContains rest pat

/-- The title pass of get_track_metadata (lines 82-90): a single scan that
accepts an entry on exact normalized equality, or else on mutual substring
containment, before moving to the next entry. -/
def titlePassFrom (nt : List Char) : Nat → List AlbumTrack → Option Nat
  | _, [] => none
  | idx, tr :: rest =>
    let tt := normalize_title tr.title
    if tt = nt then some idx
    else if strContains tt nt || strContains nt tt then some idx
    else titlePassFrom nt (idx + 1) rest

/-- The combined matcher of lines 77-90: the exact-id pass, then the title
pass only if the id pass found nothing. -/
def find_track_number (tracks : List AlbumTrack) (vid nt : List Char) : Option Nat :=
  match idPassFrom vid 1 tracks with
  | some i => some i
  | none => titlePassFrom nt 1 tracks

/-- Embedding of get_track_metadata.  The outer try/except returns none on
a raised watch call or a falsy/trackless watch response; a missing album
reference yields the partial result; the inner try/except swallows a
raised or falsy album fetch, also yielding the partial result. -/
def get_track_metadata (cat : Catalog) (video_id : List Char) : Option MetadataResult :=
  match cat.get_watch_playlist video_id with
  | .error _ => none
  | .ok none => none
  | .ok (some wd) =>
    match wd.tracks with
    | [] => none
    | t :: _ =>
      let normalized_title := normalize_title t.title
      match t.albumId with
      | none => some ⟨none, none⟩
      | some album_id =>
        match cat.get_album album_id with
        | .error _ => some ⟨none, none⟩
        | .ok none => some ⟨none, none⟩
        | .ok (some ad) =>
          some ⟨find_track_number ad.tracks video_id normalized_title, some ad.tracks.length⟩

/-! ### Tag reading and writing (lines 101-136) -/

/-- The state of the ID3 container of one file as the reader sees it:
a readable header whose TRCK frame is present (carrying its textual value)
or absent, a file without a header (ID3NoHeaderError), or a reader that
raises some other exception. -/
inductive TagState where
  | header (trck : Option (List Char))
  | noHeader
  | readError
deriving DecidableEq

/-- Embedding of get_existing_track_number: the frame value when the frame
is present, none when the frame is absent or reading raises. -/
def get_existing_track_number : TagState → Option (List Char)
  | .header (some s) => some s
  | .header none => none
  | .noHeader => none
  | .readError => none

/-- Python truthiness of the value tested on line 168: None and the empty
string are falsy. -/
def truthy : Option (List Char) → Bool
  | none => false
  | some [] => false
  | some (_ :: _) => true

/-- The track string written and displayed (lines 112-115 and 210): the
slash form when total_tracks is truthy (nonzero), the bare number
otherwise. -/
def trackStr (n : Nat) (tot : Option Nat) : List Char :=
  match tot with
  | some (t + 1) => (Nat.repr n).toList ++ '/' :: (Nat.repr (t + 1)).toList
  | _ => (Nat.repr n).toList

/-- Embedding of write_tags: ioOk models the two caught exception sites
(the initial read and tags.save).  Returns success together with the value
written, none when nothing was written. -/
def write_tags (ioOk : Bool) (track_number : Option Nat) (total_tracks : Option Nat) :
    Bool × Option (List Char) :=
  match track_number with
  | none => (false, none)
  | some n => if ioOk then (true, some (trackStr n total_tracks)) else (false, none)

/-! ### scan_folder (lines 139-223) -/

/-- The stats dict of scan_folder. -/
structure ScanStats where
  scanned : Nat
  needs_enrichment : Nat
  enriched : Nat
  failed : Nat
  no_video_id : Nat
deriving DecidableEq

/-- The zero-initialised stats of lines 144-150. -/
def stats0 : ScanStats := ⟨0, 0, 0, 0, 0⟩

/-- One file in traversal order, with the state of its tag container. -/
structure MediaFile where
  name : List Char
  tag : TagState
deriving DecidableEq

/-- The filesystem and collaborators seen by one scan: whether the target
folder exists, the mp3 files in traversal order, the catalog, and whether
the tag write for a given file would succeed. -/
structure Env where
  folderExists : Bool
  files : List MediaFile
  cat : Catalog
  writeOk : MediaFile → Bool

/-- One iteration of the first pass (lines 165-176): count the file, skip
it when it already has a truthy track value, count a missing video id,
otherwise queue it for enrichment. -/
def passOneStep (acc : ScanStats × List (MediaFile × List Char)) (f : MediaFile) :
    ScanStats × List (MediaFile × List Char) :=
  let st := { acc.1 with scanned := acc.1.scanned + 1 }
  if truthy (get_existing_track_number f.tag) then (st, acc.2)
  else
    match extract_video_id f.name with
    | none => ({ st with no_video_id := st.no_video_id + 1 }, acc.2)
    | some vid => (st, acc.2 ++ [(f, vid)])

/-- The first pass over the whole file list. -/
def passOne (files : List MediaFile) : ScanStats × List (MediaFile × List Char) :=
  files.foldl passOneStep (stats0, [])

/-- One iteration of the second pass (lines 190-221).  The second component
of the accumulator is the list of performed tag writes, each recorded as
the file together with the value written. -/
def passTwoStep (cat : Catalog) (dry_run : Bool) (writeOk : MediaFile → Bool)
    (acc : ScanStats × List (MediaFile × List Char)) (c : MediaFile × List Char) :
    ScanStats × List (MediaFile × List Char) :=
  match get_track_metadata cat c.2 with
  | none => ({ acc.1 with failed := acc.1.failed + 1 }, acc.2)
  | some m =>
    match m.track_number with
    | none => ({ acc.1 with failed := acc.1.failed + 1 }, acc.2)
    | some n =>
      if dry_run then ({ acc.1 with enriched := acc.1.enriched + 1 }, acc.2)
      else
        match write_tags (writeOk c.1) (some n) m.total_tracks with
        | (true, some ts) =>
          ({ acc.1 with enriched := acc.1.enriched + 1 }, acc.2 ++ [(c.1, ts)])
        | _ => ({ acc.1 with failed := acc.1.failed + 1 }, acc.2)

/-- Embedding of scan_folder.  Returns the stats dict together with the
list of tag writes performed during the scan.  A missing folder and an
empty file list return the zero stats (lines 152-161); needs_enrichment is
set to the length of the candidate list before the emptiness test (lines
178-182). -/
def scan_folder (env : Env) (dry_run : Bool) : ScanStats × List (MediaFile × List Char) :=
  if env.folderExists = false then (stats0, [])
  else if env.files = [] then (stats0, [])
  else if (passOne env.files).2 = [] then
    ({ (passOne env.files).1 with needs_enrichment := (passOne env.files).2.length }, [])
  else
    List.foldl (passTwoStep env.cat dry_run env.writeOk)
      ({ (passOne env.files).1 with needs_enrichment := (passOne env.files).2.length }, [])
      (passOne env.files).2

/-- The first n iterations of run_daemon (lines 247-256): the loop body
performs a scan, prints, sleeps, and repeats unconditionally. -/
def run_daemon_stats (env : Env) (dry_run : Bool) : Nat → List ScanStats
  | 0 => []
  | n + 1 => (scan_folder env dry_run).1 :: run_daemon_stats env dry_run n

/-! ### Auxiliary predicates used by the theorems -/

/-- True when the list does not end in a whitespace character. -/
def lastNotSpace (l : List Char) : Bool :=
  match l.reverse with
  | [] => true
  | c :: _ => !isSpaceChar c

/-- The per-entry acceptance test of the title pass of lines 82-90: exact
normalized equality or mutual substring containment. -/
def titleHit (nt : List Char) (tr : AlbumTrack) : Bool :=
  normalize_title tr.title == nt ||
    (strContains (normalize_title tr.title) nt || strContains nt (normalize_title tr.title))

/-! ### Definitions modelled from the words of the claims, for comparison
with the embedded code -/

/-- Modelled from the words of claim C1: a full scan of the album list that
accepts only exact normalized-title equality. -/
def eqPassFrom (nt : List Char) : Nat → List AlbumTrack → Option Nat
  | _, [] => none
  | idx, tr :: rest =>
    if normalize_title tr.title = nt then some idx else eqPassFrom nt (idx + 1) rest

/-- Modelled from the words of claim C1: a scan of the album list that
accepts mutual substring containment of normalized titles. -/
def containPassFrom (nt : List Char) : Nat → List AlbumTrack → Option Nat
  | _, [] => none
  | idx, tr :: rest =>
    if strContains (normalize_title tr.title) nt ||
        strContains nt (normalize_title tr.title) then some idx
    else containPassFrom nt (idx + 1) rest

/-- Modelled from the words of claim C1: complete the equality scan over
the whole list before falling back to a containment scan. -/
def title_pass_claimed (tracks : List AlbumTrack) (nt : List Char) : Option Nat :=
  match eqPassFrom nt 1 tracks with
  | some i => some i
  | none => containPassFrom nt 1 tracks

/-- Modelled from the words of claim C3: the file name ends with a hyphen
followed immediately by the eleven-character token and the extension; the
material before the hyphen (whitespace or anything else) is unconstrained. -/
def claimed_extract (name : List Char) : Option (List Char) :=
  let r := name.reverse
  if r.take 4 = ['3', 'p', 'm', '.'] then
    let tokr := (r.drop 4).take 11
    if tokr.length = 11 ∧ tokr.all isIdChar then
      match r.drop 15 with
      | '-' :: _ => some tokr.reverse
      | _ => none
    else none
  else none

/-- Modelled from the words of claim C8: remove only a trailing annotation,
the span from the nearest matching opener to the closer that ends the
string, together with the whitespace before the opener; any string not
ending in a closer is left unchanged. -/
def strip_trailing_claimed (s : List Char) : List Char :=
  match s.reverse with
  | [] => s
  | cl :: rest =>
    if cl == ')' || cl == ']' then
      match rest.dropWhile (fun c => !(c == (if cl == ')' then '(' else '['))) with
      | _ :: before => (before.dropWhile isSpaceChar).reverse
      | [] => s
    else s

/-- Modelled from the words of claim C8: the claimed normalization
pipeline, differing from normalize_title only in its first step. -/
def normalize_claimed (title : List Char) : List Char :=
  joinSpaces (pySplit (remove_punct (strip_trailing_claimed title)) [])

/-! ### Concrete scan environments used by witnesses and counterexamples -/

/-- A catalog that resolves the sample video id to position 1 of a
one-track album. -/
def watchCat : Catalog :=
  ⟨fun _ => .ok (some ⟨[⟨"t".toList, some ("al".toList)⟩]⟩),
   fun _ => .ok (some ⟨[⟨some ("abc12345678".toList), "t".toList⟩]⟩)⟩

/-- An untagged file whose name carries an extractable video id. -/
def fileOk : MediaFile := ⟨"A - abc12345678.mp3".toList, TagState.noHeader⟩

/-- A scan environment whose tag writes all fail. -/
def envNoWrite : Env := ⟨true, [fileOk], watchCat, fun _ => false⟩

/-- A scan environment whose target folder is absent. -/
def envAbsent : Env := ⟨false, [fileOk], watchCat, fun _ => true⟩

/-- A scan environment whose tag writes all succeed. -/
def envOk : Env := ⟨true, [fileOk], watchCat, fun _ => true⟩

/-! ## Helper lemmas -/

theorem mem_of_mem_dropWhile {α : Type} {p : α → Bool} :
    ∀ {l : List α} {x : α}, x ∈ l.dropWhile p → x ∈ l := by
  intro l
  induction l with
  | nil => intro x h; simp at h
  | cons c rest ih =>
    intro x h
    rw [List.dropWhile_cons] at h
    by_cases hc : p c = true
    · rw [if_pos hc] at h
      exact List.mem_cons_of_mem _ (ih h)
    · rw [if_neg hc] at h
      exact h

theorem dropWhile_append_all {α : Type} {p : α → Bool} :
    ∀ {a : List α}, (∀ c ∈ a, p c = true) → ∀ (b : List α),
      (a ++ b).dropWhile p = b.dropWhile p := by
  intro a
  induction a with
  | nil => intro _ b; rfl
  | cons c rest ih =>
    intro h b
    have hc : p c = true := h c (by simp)
    rw [List.cons_append, List.dropWhile_cons, if_pos hc]
    exact ih (fun x hx => h x (by simp [hx])) b

theorem dropWhile_length_le {α : Type} (p : α → Bool) :
    ∀ (l : List α), (l.dropWhile p).length ≤ l.length := by
  intro l
  induction l with
  | nil => simp
  | cons c rest ih =>
    rw [List.dropWhile_cons]
    by_cases hc : p c = true
    · rw [if_pos hc]; exact Nat.le_trans ih (by simp)
    · rw [if_neg hc]

theorem dropWhile_append_pos {α : Type} {p : α → Bool} :
    ∀ {a : List α}, a.dropWhile p ≠ [] → ∀ (b : List α),
      (a ++ b).dropWhile p = a.dropWhile p ++ b := by
  intro a
  induction a with
  | nil => intro h; simp at h
  | cons c rest ih =>
    intro h b
    rw [List.dropWhile_cons] at h
    by_cases hc : p c = true
    · rw [if_pos hc] at h
      rw [List.cons_append]
      simp only [List.dropWhile_cons, if_pos hc]
      exact ih h b
    · rw [List.cons_append]
      simp only [List.dropWhile_cons, if_neg hc]
      exact (List.cons_append c rest b).symm

theorem takeWhile_append_stop {p : Char → Bool} :
    ∀ {a : List Char}, (∀ c ∈ a, p c = true) → ∀ {c : Char}, p c = false →
      ∀ {b : List Char}, (a ++ c :: b).takeWhile p = a := by
  intro a
  induction a with
  | nil =>
    intro _ c hc b
    rw [List.nil_append, List.takeWhile_cons, if_neg (by simp [hc])]
  | cons d ds ih =>
    intro h c hc b
    rw [List.cons_append, List.takeWhile_cons, if_pos (h d (by simp)),
      ih (fun x hx => h x (by simp [hx])) hc]

theorem findCloser_length : ∀ {l r : List Char}, findCloser l = some r → r.length < l.length := by
  intro l
  induction l with
  | nil => intro r h; simp [findCloser] at h
  | cons c rest ih =>
    intro r h
    unfold findCloser at h
    by_cases h1 : isCloseB c = true
    · rw [if_pos h1] at h
      cases h
      simp
    · rw [if_neg h1] at h
      by_cases h2 : (c == '\n') = true
      · rw [if_pos h2] at h; cases h
      · rw [if_neg h2] at h
        exact Nat.lt_trans (ih h) (by simp)

theorem findCloser_through :
    ∀ {mid : List Char}, (∀ c ∈ mid, isCloseB c = false ∧ c ≠ '\n') →
      ∀ {cl : Char}, isCloseB cl = true → ∀ (rest : List Char),
        findCloser (mid ++ cl :: rest) = some rest := by
  intro mid
  induction mid with
  | nil => intro _ cl hcl rest; simp [findCloser, hcl]
  | cons c m ih =>
    intro h cl hcl rest
    obtain ⟨h1, h2⟩ := h c (by simp)
    rw [List.cons_append]
    unfold findCloser
    rw [if_neg (by simp [h1]), if_neg (by simp [h2])]
    exact ih (fun x hx => h x (by simp [hx])) hcl rest

theorem matchAt_some_length : ∀ {s r : List Char}, matchAt s = some r → r.length < s.length := by
  intro s r h
  unfold matchAt at h
  split at h
  case h_1 c rest heq =>
    split at h
    · have h1 := findCloser_length h
      have h2 : (c :: rest).length ≤ s.length := by
        rw [← heq]; exact dropWhile_length_le isSpaceChar s
      simp at h2
      omega
    · cases h
  case h_2 => cases h

theorem stripFuel_nil : ∀ (f : Nat), stripFuel f [] = [] := by
  intro f
  cases f with
  | zero => rfl
  | succ g => rfl

theorem stripFuel_congr : ∀ (f g : Nat) (s : List Char), s.length ≤ f → s.length ≤ g →
    stripFuel f s = stripFuel g s := by
  intro f
  induction f with
  | zero =>
    intro g s hf _
    have hs : s = [] := List.length_eq_zero.mp (Nat.le_zero.mp hf)
    subst hs
    rw [stripFuel_nil, stripFuel_nil]
  | succ f ih =>
    intro g s hf hg
    cases g with
    | zero =>
      have hs : s = [] := List.length_eq_zero.mp (Nat.le_zero.mp hg)
      subst hs
      rw [stripFuel_nil, stripFuel_nil]
    | succ g =>
      cases s with
      | nil => rfl
      | cons c rest =>
        simp only [stripFuel]
        cases hm : matchAt (c :: rest) with
        | some rem =>
          have hlt := matchAt_some_length hm
          simp only [List.length_cons] at hf hg hlt
          exact ih g rem (by omega) (by omega)
        | none =>
          simp only [List.length_cons] at hf hg
          exact congrArg (c :: ·) (ih g rest (by omega) (by omega))

theorem strip_annotations_nil : strip_annotations [] = [] := rfl

theorem strip_annotations_match {s rem : List Char} (h : matchAt s = some rem) :
    strip_annotations s = strip_annotations rem := by
  have hlt := matchAt_some_length h
  cases s with
  | nil => rw [show matchAt [] = none from rfl] at h; cases h
  | cons c rest =>
    show stripFuel (c :: rest).length (c :: rest) = stripFuel rem.length rem
    rw [List.length_cons]
    simp only [stripFuel]
    rw [h]
    simp only [List.length_cons] at hlt
    exact stripFuel_congr rest.length rem.length rem (by omega) (Nat.le_refl _)

theorem strip_annotations_emit {c : Char} {rest : List Char}
    (h : matchAt (c :: rest) = none) :
    strip_annotations (c :: rest) = c :: strip_annotations rest := by
  show stripFuel (c :: rest).length (c :: rest) = c :: stripFuel rest.length rest
  rw [List.length_cons]
  simp only [stripFuel]
  rw [h]

theorem matchAt_none_of_no_open {s : List Char}
    (h : ∀ c ∈ s, isOpenB c = false) : matchAt s = none := by
  unfold matchAt
  cases hd : s.dropWhile isSpaceChar with
  | nil => rfl
  | cons c rest =>
    have hc : c ∈ s := mem_of_mem_dropWhile (by rw [hd]; exact List.mem_cons_self _ _)
    show (if isOpenB c = true then findCloser rest else none) = none
    rw [if_neg (by simp [h c hc])]

theorem strip_annotations_no_open :
    ∀ {s : List Char}, (∀ c ∈ s, isOpenB c = false) → strip_annotations s = s := by
  intro s
  induction s with
  | nil => intro _; rfl
  | cons c rest ih =>
    intro h
    rw [strip_annotations_emit (matchAt_none_of_no_open h),
      ih (fun x hx => h x (by simp [hx]))]

theorem isSpaceChar_of_open {op : Char} (hop : isOpenB op = true) : isSpaceChar op = false := by
  rcases (by simpa [isOpenB] using hop : op = '(' ∨ op = '[') with h | h <;> subst h <;> decide

theorem matchAt_annotation {ws : List Char} (hws : ∀ c ∈ ws, isSpaceChar c = true)
    {op : Char} (hop : isOpenB op = true)
    {mid : List Char} (hmid : ∀ c ∈ mid, isCloseB c = false ∧ c ≠ '\n')
    {cl : Char} (hcl : isCloseB cl = true) :
    matchAt (ws ++ op :: (mid ++ [cl])) = some [] := by
  unfold matchAt
  rw [dropWhile_append_all hws, List.dropWhile_cons, if_neg (by simp [isSpaceChar_of_open hop])]
  show (if isOpenB op = true then findCloser (mid ++ [cl]) else none) = some []
  rw [if_pos hop]
  exact findCloser_through hmid hcl []

theorem lastNotSpace_cons {c : Char} {p : List Char} (h : lastNotSpace (c :: p) = true) :
    lastNotSpace p = true := by
  cases hp : p.reverse with
  | nil => simp [lastNotSpace, hp]
  | cons d ds =>
    unfold lastNotSpace at h ⊢
    rw [hp]
    rw [List.reverse_cons, hp] at h
    simpa using h

theorem lastNotSpace_not_all_space {p : List Char} (hne : p ≠ [])
    (h : lastNotSpace p = true) : ¬∀ c ∈ p, isSpaceChar c = true := by
  intro hall
  cases hp : p.reverse with
  | nil =>
    exact hne (by simpa using congrArg List.reverse hp)
  | cons d ds =>
    have hd : d ∈ p := by
      rw [← List.mem_reverse, hp]
      exact List.mem_cons_self _ _
    unfold lastNotSpace at h
    rw [hp] at h
    simp [hall d hd] at h

/-- Removing a whitespace-prefixed bracketed span whose match consumes the
whole tail: the head survives untouched provided it contains no opener and
does not end in whitespace. -/
theorem strip_append_of_matchAt {tail : List Char} (htail : matchAt tail = some []) :
    ∀ {pre : List Char}, (∀ c ∈ pre, isOpenB c = false) → lastNotSpace pre = true →
      strip_annotations (pre ++ tail) = pre := by
  intro pre
  induction pre with
  | nil =>
    intro _ _
    rw [List.nil_append, strip_annotations_match htail, strip_annotations_nil]
  | cons c p ih =>
    intro hpre hlast
    have hlast' : lastNotSpace p = true := lastNotSpace_cons hlast
    by_cases hc : isSpaceChar c = true
    · -- a whitespace head character: the rest of the head must contain a
      -- non-whitespace character, which blocks a match from starting here
      cases p with
      | nil => simp [lastNotSpace, hc] at hlast
      | cons d q =>
        have hnotall : (d :: q).dropWhile isSpaceChar ≠ [] := by
          intro hnil
          rw [List.dropWhile_eq_nil_iff] at hnil
          exact lastNotSpace_not_all_space (by simp) hlast' hnil
        have hmA : matchAt (c :: ((d :: q) ++ tail)) = none := by
          unfold matchAt
          rw [List.dropWhile_cons, if_pos hc, dropWhile_append_pos hnotall]
          cases hdq : (d :: q).dropWhile isSpaceChar with
          | nil => exact absurd hdq hnotall
          | cons e es =>
            have he : e ∈ d :: q :=
              mem_of_mem_dropWhile (by rw [hdq]; exact List.mem_cons_self _ _)
            rw [List.cons_append]
            show (if isOpenB e = true then findCloser (es ++ tail) else none) = none
            rw [if_neg (by simp [hpre e (by simp [he])])]
        rw [List.cons_append, strip_annotations_emit hmA,
          ih (fun x hx => hpre x (by simp [hx])) hlast']
    · -- a non-whitespace head character, which is not an opener
      have hmA : matchAt (c :: (p ++ tail)) = none := by
        unfold matchAt
        rw [List.dropWhile_cons, if_neg hc]
        show (if isOpenB c = true then findCloser (p ++ tail) else none) = none
        rw [if_neg (by simp [hpre c (by simp)])]
      rw [List.cons_append, strip_annotations_emit hmA,
        ih (fun x hx => hpre x (by simp [hx])) hlast']

/-! ## Claim C8 -/

/-- C8 counterexample: on the title "a (x) b" the claimed algorithm (strip
only a trailing annotation) yields "a x b", but normalize_title removes the
bracketed span in the middle of the string and yields "a b".  The code
therefore does not strip only trailing annotations. -/
theorem c8_counterexample :
    normalize_title ("a (x) b".toList) ≠ normalize_claimed ("a (x) b".toList) := by decide

/-- C8 (amended): normalize_title removes each whitespace-prefixed
parenthesized or bracketed span, closed by the first following closer of
either kind (not necessarily the matching one), anywhere in the string,
then removes punctuation and symbols, lowercases, and collapses and trims
whitespace.  In particular removing a bracketed tail after a head that
contains no opener and does not end in whitespace leaves exactly the
normalized head, so normalize("Song Title (Live)") = normalize("Song
Title"); moreover spans are removed in the middle of a string, and a span
opened by a parenthesis may be closed by a square bracket. -/
theorem c8_amended :
    (∀ (pre ws mid : List Char) (op cl : Char),
      (∀ c ∈ pre, isOpenB c = false) → lastNotSpace pre = true →
      (∀ c ∈ ws, isSpaceChar c = true) → isOpenB op = true →
      (∀ c ∈ mid, isCloseB c = false ∧ c ≠ '\n') → isCloseB cl = true →
      normalize_title (pre ++ (ws ++ op :: (mid ++ [cl]))) = normalize_title pre) ∧
    normalize_title ("a (x) b".toList) = "a b".toList ∧
    normalize_title ("x (y] z)".toList) = "x z".toList := by
  refine ⟨?_, by decide, by decide⟩
  intro pre ws mid op cl hpre hlast hws hop hmid hcl
  have htail : matchAt (ws ++ op :: (mid ++ [cl])) = some [] :=
    matchAt_annotation hws hop hmid hcl
  unfold normalize_title
  rw [strip_append_of_matchAt htail hpre hlast, strip_annotations_no_open hpre]

/-- C8 witness: the amended theorem applied to the example of the spec. -/
theorem c8_witness :
    normalize_title ("Song Title".toList ++ (" ".toList ++ '(' :: ("Live".toList ++ [')']))) =
      normalize_title ("Song Title".toList) :=
  c8_amended.1 ("Song Title".toList) (" ".toList) ("Live".toList) '(' ')'
    (by decide) (by decide) (by decide) (by decide) (by decide) (by decide)

/-! ## Claim C1 -/

/-- C1 counterexample: with target normalized title "ab" and album titles
["ab c", "ab"], the embedded title pass stops at entry 1 (a containment
match), while the claimed equality-scan-first policy returns entry 2 (the
exact match).  The code therefore interleaves the two checks rather than
completing an equality scan first. -/
theorem c1_counterexample :
    titlePassFrom ("ab".toList) 1 [⟨none, "ab c".toList⟩, ⟨none, "ab".toList⟩] = some 1 ∧
    title_pass_claimed [⟨none, "ab c".toList⟩, ⟨none, "ab".toList⟩] ("ab".toList) = some 2 := by
  decide

theorem titlePassFrom_cons (nt : List Char) (idx : Nat) (tr : AlbumTrack)
    (rest : List AlbumTrack) :
    titlePassFrom nt idx (tr :: rest) =
      if titleHit nt tr then some idx else titlePassFrom nt (idx + 1) rest := by
  show (if normalize_title tr.title = nt then some idx
        else if (strContains (normalize_title tr.title) nt ||
            strContains nt (normalize_title tr.title)) = true then some idx
        else titlePassFrom nt (idx + 1) rest) =
      if titleHit nt tr then some idx else titlePassFrom nt (idx + 1) rest
  unfold titleHit
  by_cases h1 : normalize_title tr.title = nt
  · rw [if_pos h1, if_pos (by simp [h1])]
  · rw [if_neg h1]
    by_cases h2 : (strContains (normalize_title tr.title) nt ||
        strContains nt (normalize_title tr.title)) = true
    · rw [if_pos h2, if_pos (by rw [h2, Bool.or_true])]
    · rw [if_neg h2, if_neg (by simp [h1, h2])]

theorem titlePassFrom_first_hit (nt : List Char) :
    ∀ (pre : List AlbumTrack) (tr : AlbumTrack) (rest : List AlbumTrack) (k : Nat),
      (∀ p ∈ pre, titleHit nt p = false) → titleHit nt tr = true →
      titlePassFrom nt k (pre ++ tr :: rest) = some (k + pre.length) := by
  intro pre
  induction pre with
  | nil =>
    intro tr rest k _ hhit
    rw [List.nil_append, titlePassFrom_cons, if_pos hhit]
    simp
  | cons p ps ih =>
    intro tr rest k hpre hhit
    rw [List.cons_append, titlePassFrom_cons, if_neg (by simp [hpre p (by simp)]),
      ih tr rest (k + 1) (fun x hx => hpre x (by simp [hx])) hhit]
    simp
    omega

/-- C1 (amended): the title pass is a single combined scan in list order:
it returns the 1-based position of the first entry whose normalized title
is exactly equal to the target or in mutual substring containment with it,
so a containment-only match earlier in the list wins over an exact
equality match later in the list. -/
theorem c1_amended (nt : List Char) (pre : List AlbumTrack) (tr : AlbumTrack)
    (rest : List AlbumTrack)
    (hpre : ∀ p ∈ pre, titleHit nt p = false) (hhit : titleHit nt tr = true) :
    titlePassFrom nt 1 (pre ++ tr :: rest) = some (pre.length + 1) := by
  rw [titlePassFrom_first_hit nt pre tr rest 1 hpre hhit, Nat.add_comm]

/-- C1 witness: the amended theorem applied to a list whose second entry is
hit by containment while the third is an exact match. -/
theorem c1_witness :
    titlePassFrom ("ab".toList) 1
      [⟨none, "xq".toList⟩, ⟨none, "ab c".toList⟩, ⟨none, "ab".toList⟩] = some 2 :=
  c1_amended ("ab".toList) [⟨none, "xq".toList⟩] ⟨none, "ab c".toList⟩
    [⟨none, "ab".toList⟩] (by decide) (by decide)

/-! ## Claim C2 -/

theorem idPassFrom_first_hit (vid : List Char) :
    ∀ (pre : List AlbumTrack) (tr : AlbumTrack) (rest : List AlbumTrack) (k : Nat),
      (∀ p ∈ pre, p.videoId ≠ some vid) → tr.videoId = some vid →
      idPassFrom vid k (pre ++ tr :: rest) = some (k + pre.length) := by
  intro pre
  induction pre with
  | nil =>
    intro tr rest k _ hid
    rw [List.nil_append]
    show (if tr.videoId = some vid then some k else idPassFrom vid (k + 1) rest) =
      some (k + [].length)
    rw [if_pos hid]
    simp
  | cons p ps ih =>
    intro tr rest k hpre hid
    rw [List.cons_append]
    show (if p.videoId = some vid then some k
        else idPassFrom vid (k + 1) (ps ++ tr :: rest)) = some (k + (p :: ps).length)
    rw [if_neg (hpre p (by simp)),
      ih tr rest (k + 1) (fun x hx => hpre x (by simp [hx])) hid]
    simp
    omega

/-- C2: when some album entry carries the queried external id, the
resolver returns the 1-based position of the first such entry together
with the album length, whatever the titles are — in particular even when
an earlier entry would match by title, the title pass never influences the
result. -/
theorem c2_id_pass_wins (cat : Catalog) (vid : List Char) (wd : WatchData)
    (t : WatchTrack) (ts : List WatchTrack) (aid : List Char) (ad : AlbumData)
    (pre : List AlbumTrack) (tr : AlbumTrack) (rest : List AlbumTrack)
    (hw : cat.get_watch_playlist vid = .ok (some wd))
    (ht : wd.tracks = t :: ts)
    (ha : t.albumId = some aid)
    (hal : cat.get_album aid = .ok (some ad))
    (htr : ad.tracks = pre ++ tr :: rest)
    (hpre : ∀ p ∈ pre, p.videoId ≠ some vid)
    (hid : tr.videoId = some vid) :
    get_track_metadata cat vid = some ⟨some (pre.length + 1), some ad.tracks.length⟩ := by
  simp only [get_track_metadata, hw, ht, ha, hal, find_track_number, htr]
  rw [idPassFrom_first_hit vid pre tr rest 1 hpre hid]
  simp [Nat.add_comm]

/-- C2 witness: the album's first entry matches the watch title exactly
(the title pass would return 1), but the id matches at position 2 and
wins. -/
theorem c2_witness :
    get_track_metadata
      ⟨fun _ => .ok (some ⟨[⟨"zz".toList, some ("alb".toList)⟩]⟩),
       fun _ => .ok (some ⟨[⟨some ("other291827x".toList), "zz".toList⟩,
         ⟨some ("abc12345678".toList), "ww".toList⟩]⟩)⟩
      ("abc12345678".toList) = some ⟨some 2, some 2⟩ :=
  c2_id_pass_wins _ ("abc12345678".toList) _ _ _ _ _
    [⟨some ("other291827x".toList), "zz".toList⟩]
    ⟨some ("abc12345678".toList), "ww".toList⟩ []
    rfl rfl rfl rfl rfl (by decide) rfl

/-! ## Claim C5 -/

/-- C5: the resolver degrades internal failures instead of escalating: a
raised watch call returns none, a falsy watch response returns none, and a
raised album fetch after a successful watch still returns the partial
result whose track number is absent. -/
theorem c5_resolver_degrades :
    (∀ (cat : Catalog) (vid : List Char) (e : Unit),
      cat.get_watch_playlist vid = .error e → get_track_metadata cat vid = none) ∧
    (∀ (cat : Catalog) (vid : List Char),
      cat.get_watch_playlist vid = .ok none → get_track_metadata cat vid = none) ∧
    (∀ (cat : Catalog) (vid : List Char) (wd : WatchData) (t : WatchTrack)
      (ts : List WatchTrack) (aid : List Char) (e : Unit),
      cat.get_watch_playlist vid = .ok (some wd) → wd.tracks = t :: ts →
      t.albumId = some aid → cat.get_album aid = .error e →
      get_track_metadata cat vid = some ⟨none, none⟩) := by
  refine ⟨?_, ?_, ?_⟩
  · intro cat vid e hw
    unfold get_track_metadata
    rw [hw]
  · intro cat vid hw
    unfold get_track_metadata
    rw [hw]
  · intro cat vid wd t ts aid e hw ht ha hal
    simp only [get_track_metadata, hw, ht, ha, hal]

/-- C5 witness: a catalog whose watch call raises yields none; a catalog
whose album call raises yields the partial result. -/
theorem c5_witness :
    get_track_metadata ⟨fun _ => .error (), fun _ => .error ()⟩ ("v".toList) = none ∧
    get_track_metadata
      ⟨fun _ => .ok (some ⟨[⟨"t".toList, some ("a".toList)⟩]⟩), fun _ => .error ()⟩
      ("v".toList) = some ⟨none, none⟩ :=
  ⟨c5_resolver_degrades.1 _ _ () rfl,
   c5_resolver_degrades.2.2 _ _ _ _ _ _ () rfl rfl rfl rfl⟩

/-! ## Claim C3 -/

/-- C3 counterexample: on "A- abc12345678.mp3" the token is separated from
the hyphen by a space, so the shape claimed in C3 (the hyphen immediately
followed by the eleven characters) does not hold and the claimed extractor
returns nothing, yet the code accepts it: the regex allows whitespace
after the hyphen, not before it. -/
theorem c3_counterexample :
    extract_video_id ("A- abc12345678.mp3".toList) = some ("abc12345678".toList) ∧
    claimed_extract ("A- abc12345678.mp3".toList) = none := by decide

/-- C3 (amended): the extractor returns the token exactly when the file
name ends with a hyphen, optionally followed by whitespace, then exactly
eleven characters of the id alphabet and the ".mp3" extension; every other
file name yields none, and the token is always the group anchored at the
end of the name. -/
theorem c3_amended (name tok : List Char) :
    extract_video_id name = some tok ↔
      ∃ pre ws : List Char, (∀ c ∈ ws, isSpaceChar c = true) ∧ tok.length = 11 ∧
        (∀ c ∈ tok, isIdChar c = true) ∧
        name = pre ++ '-' :: (ws ++ (tok ++ ['.', 'm', 'p', '3'])) := by
  constructor
  · intro h
    simp only [extract_video_id] at h
    split at h
    case isFalse => exact absurd h (by simp)
    case isTrue h4 =>
      split at h
      case isFalse => exact absurd h (by simp)
      case isTrue h11 =>
        obtain ⟨hlen, hall⟩ := h11
        split at h
        case h_2 => exact absurd h (by simp)
        case h_1 x tail heq =>
          have htok : ((name.reverse.drop 4).take 11).reverse = tok := Option.some.inj h
          refine ⟨tail.reverse, ((name.reverse.drop 15).takeWhile isSpaceChar).reverse,
            ?_, ?_, ?_, ?_⟩
          · intro d hd
            rw [List.mem_reverse] at hd
            exact List.mem_takeWhile_imp hd
          · rw [← htok, List.length_reverse]
            exact hlen
          · intro d hd
            rw [← htok, List.mem_reverse] at hd
            exact List.all_eq_true.mp hall d hd
          · have e1 : name.reverse = name.reverse.take 4 ++ name.reverse.drop 4 :=
              (List.take_append_drop 4 _).symm
            have e2 : name.reverse.drop 4 =
                (name.reverse.drop 4).take 11 ++ (name.reverse.drop 4).drop 11 :=
              (List.take_append_drop 11 _).symm
            have e3 : (name.reverse.drop 4).drop 11 = name.reverse.drop 15 := by
              rw [List.drop_drop]
            have e4 : name.reverse.drop 15 =
                (name.reverse.drop 15).takeWhile isSpaceChar ++ ('-' :: tail) := by
              conv_lhs => rw [← List.takeWhile_append_dropWhile isSpaceChar
                (name.reverse.drop 15), heq]
            have hbig : name.reverse = ['3', 'p', 'm', '.'] ++
                ((name.reverse.drop 4).take 11 ++
                  ((name.reverse.drop 15).takeWhile isSpaceChar ++ ('-' :: tail))) := by
              rw [← h4, ← e4, ← e3, ← e2, ← e1]
            have hname := congrArg List.reverse hbig
            rw [List.reverse_reverse] at hname
            rw [hname, ← htok]
            simp [List.reverse_append]
            rw [List.drop_left' hlen,
              takeWhile_append_stop (fun c hc => List.mem_takeWhile_imp hc) (by decide)]
  · rintro ⟨pre, ws, hws, hlen, hall, rfl⟩
    have hrev : (pre ++ '-' :: (ws ++ (tok ++ ['.', 'm', 'p', '3']))).reverse =
        (['3', 'p', 'm', '.'] : List Char) ++
          (tok.reverse ++ (ws.reverse ++ ('-' :: pre.reverse))) := by
      simp [List.reverse_append]
    have hlenr : tok.reverse.length = 11 := by rw [List.length_reverse]; exact hlen
    have h3 : ((['3', 'p', 'm', '.'] : List Char) ++
        (tok.reverse ++ (ws.reverse ++ ('-' :: pre.reverse)))).drop 4 =
        tok.reverse ++ (ws.reverse ++ ('-' :: pre.reverse)) :=
      List.drop_left' rfl
    have h5 : ((['3', 'p', 'm', '.'] : List Char) ++
        (tok.reverse ++ (ws.reverse ++ ('-' :: pre.reverse)))).drop 15 =
        ws.reverse ++ ('-' :: pre.reverse) := by
      rw [show (15 : Nat) = 4 + 11 from rfl, ← List.drop_drop, h3]
      exact List.drop_left' hlenr
    have h6 : (ws.reverse ++ ('-' :: pre.reverse)).dropWhile isSpaceChar =
        '-' :: pre.reverse := by
      rw [dropWhile_append_all (fun c hc => hws c (List.mem_reverse.mp hc)),
        List.dropWhile_cons, if_neg (by decide)]
    simp only [extract_video_id]
    rw [hrev, List.take_left' (show (['3', 'p', 'm', '.'] : List Char).length = 4 from rfl),
      if_pos rfl, h3, List.take_left' hlenr,
      if_pos ⟨hlenr, by rw [List.all_reverse]; exact List.all_eq_true.mpr hall⟩,
      h5, h6, List.reverse_reverse]
    rfl

/-! ## Claim C4 -/

theorem passOne_mem_toEnrich :
    ∀ (files : List MediaFile) (st : ScanStats) (l : List (MediaFile × List Char))
      (g : MediaFile) (v : List Char),
      (g, v) ∈ (List.foldl passOneStep (st, l) files).2 →
      (g, v) ∈ l ∨ (truthy (get_existing_track_number g.tag) = false ∧
        extract_video_id g.name = some v) := by
  intro files
  induction files with
  | nil => intro st l g v h; exact Or.inl h
  | cons f fs ih =>
    intro st l g v h
    rw [List.foldl_cons] at h
    unfold passOneStep at h
    by_cases ht : truthy (get_existing_track_number f.tag) = true
    · rw [if_pos ht] at h
      exact ih _ _ g v h
    · rw [if_neg ht] at h
      cases he : extract_video_id f.name with
      | none =>
        rw [he] at h
        exact ih _ _ g v h
      | some vid =>
        rw [he] at h
        rcases ih _ _ g v h with hl | hr
        · rcases List.mem_append.mp hl with h1 | h2
          · exact Or.inl h1
          · simp at h2
            obtain ⟨hg, hv⟩ := h2
            subst hg
            subst hv
            exact Or.inr ⟨by simpa using ht, he⟩
        · exact Or.inr hr

/-- C4: the enrichment gate — a file whose tag container yields a truthy
(non-empty) track value never reaches the candidate list of the second
pass, hence the resolver and the catalog are never consulted for it; and
the gate value is truthy exactly when the container is readable, the frame
present, and its value non-empty, so an empty, absent, or unreadable
container counts as needing enrichment rather than as an error. -/
theorem c4_gate :
    (∀ (files : List MediaFile) (f : MediaFile) (vid : List Char),
      truthy (get_existing_track_number f.tag) = true → (f, vid) ∉ (passOne files).2) ∧
    (∀ t : TagState, truthy (get_existing_track_number t) = true ↔
      ∃ s, t = TagState.header (some s) ∧ s ≠ []) := by
  constructor
  · intro files f vid ht hm
    rcases passOne_mem_toEnrich files stats0 [] f vid hm with h | ⟨hf, _⟩
    · simp at h
    · rw [ht] at hf
      cases hf
  · intro t
    constructor
    · intro h
      cases t with
      | header o =>
        cases o with
        | none => simp [get_existing_track_number, truthy] at h
        | some s =>
          cases s with
          | nil => simp [get_existing_track_number, truthy] at h
          | cons c cs => exact ⟨c :: cs, rfl, by simp⟩
      | noHeader => simp [get_existing_track_number, truthy] at h
      | readError => simp [get_existing_track_number, truthy] at h
    · rintro ⟨s, rfl, hs⟩
      cases s with
      | nil => exact absurd rfl hs
      | cons c cs => rfl

/-- C4 witness: a tagged file is not in the candidate list of its own
scan. -/
theorem c4_witness :
    (⟨"a.mp3".toList, TagState.header (some ['3'])⟩, "abc12345678".toList) ∉
      (passOne [⟨"a.mp3".toList, TagState.header (some ['3'])⟩]).2 :=
  c4_gate.1 _ _ _ (by decide)

/-! ## Scan fold lemmas -/

theorem passOneStep_tagged {f : MediaFile} (st : ScanStats) (l : List (MediaFile × List Char))
    (ht : truthy (get_existing_track_number f.tag) = true) :
    passOneStep (st, l) f = ({ st with scanned := st.scanned + 1 }, l) := by
  simp only [passOneStep, ht, if_true]

theorem passOneStep_noid {f : MediaFile} (st : ScanStats) (l : List (MediaFile × List Char))
    (ht : truthy (get_existing_track_number f.tag) = false)
    (he : extract_video_id f.name = none) :
    passOneStep (st, l) f =
      ({ st with scanned := st.scanned + 1, no_video_id := st.no_video_id + 1 }, l) := by
  simp only [passOneStep, ht, he, Bool.false_eq_true, if_false]

theorem passOneStep_cand {f : MediaFile} {vid : List Char} (st : ScanStats)
    (l : List (MediaFile × List Char))
    (ht : truthy (get_existing_track_number f.tag) = false)
    (he : extract_video_id f.name = some vid) :
    passOneStep (st, l) f = ({ st with scanned := st.scanned + 1 }, l ++ [(f, vid)]) := by
  simp only [passOneStep, ht, he, Bool.false_eq_true, if_false]

theorem passTwoStep_nometa {cat : Catalog} {dry : Bool} {wk : MediaFile → Bool}
    {c : MediaFile × List Char} (st : ScanStats) (w : List (MediaFile × List Char))
    (hm : get_track_metadata cat c.2 = none) :
    passTwoStep cat dry wk (st, w) c = ({ st with failed := st.failed + 1 }, w) := by
  simp only [passTwoStep, hm]

theorem passTwoStep_notrack {cat : Catalog} {dry : Bool} {wk : MediaFile → Bool}
    {c : MediaFile × List Char} {m : MetadataResult} (st : ScanStats)
    (w : List (MediaFile × List Char))
    (hm : get_track_metadata cat c.2 = some m) (hn : m.track_number = none) :
    passTwoStep cat dry wk (st, w) c = ({ st with failed := st.failed + 1 }, w) := by
  simp only [passTwoStep, hm, hn]

theorem passTwoStep_dry {cat : Catalog} {wk : MediaFile → Bool}
    {c : MediaFile × List Char} {m : MetadataResult} {n : Nat} (st : ScanStats)
    (w : List (MediaFile × List Char))
    (hm : get_track_metadata cat c.2 = some m) (hn : m.track_number = some n) :
    passTwoStep cat true wk (st, w) c = ({ st with enriched := st.enriched + 1 }, w) := by
  simp only [passTwoStep, hm, hn, if_true]

theorem passTwoStep_wet_ok {cat : Catalog} {wk : MediaFile → Bool}
    {c : MediaFile × List Char} {m : MetadataResult} {n : Nat} (st : ScanStats)
    (w : List (MediaFile × List Char))
    (hm : get_track_metadata cat c.2 = some m) (hn : m.track_number = some n)
    (hwk : wk c.1 = true) :
    passTwoStep cat false wk (st, w) c =
      ({ st with enriched := st.enriched + 1 }, w ++ [(c.1, trackStr n m.total_tracks)]) := by
  simp only [passTwoStep, hm, hn, hwk, write_tags, if_true, Bool.false_eq_true, if_false]

theorem passTwoStep_wet_fail {cat : Catalog} {wk : MediaFile → Bool}
    {c : MediaFile × List Char} {m : MetadataResult} {n : Nat} (st : ScanStats)
    (w : List (MediaFile × List Char))
    (hm : get_track_metadata cat c.2 = some m) (hn : m.track_number = some n)
    (hwk : wk c.1 = false) :
    passTwoStep cat false wk (st, w) c = ({ st with failed := st.failed + 1 }, w) := by
  simp only [passTwoStep, hm, hn, hwk, write_tags, Bool.false_eq_true, if_false]

theorem passOne_fold :
    ∀ (files : List MediaFile) (st : ScanStats) (l : List (MediaFile × List Char)),
      (List.foldl passOneStep (st, l) files).1.scanned = st.scanned + files.length ∧
      (List.foldl passOneStep (st, l) files).1.needs_enrichment = st.needs_enrichment ∧
      (List.foldl passOneStep (st, l) files).1.enriched = st.enriched ∧
      (List.foldl passOneStep (st, l) files).1.failed = st.failed ∧
      (List.foldl passOneStep (st, l) files).1.no_video_id +
          (List.foldl passOneStep (st, l) files).2.length ≤
        st.no_video_id + l.length + files.length := by
  intro files
  induction files with
  | nil => intro st l; simp
  | cons f fs ih =>
    intro st l
    rw [List.foldl_cons]
    by_cases ht : truthy (get_existing_track_number f.tag) = true
    · rw [passOneStep_tagged st l ht]
      obtain ⟨h1, h2, h3, h4, h5⟩ := ih { st with scanned := st.scanned + 1 } l
      refine ⟨?_, by simpa using h2, by simpa using h3, by simpa using h4, ?_⟩
      · rw [h1]; simp; omega
      · simp at h5 ⊢
        omega
    · rw [Bool.not_eq_true] at ht
      cases he : extract_video_id f.name with
      | none =>
        rw [passOneStep_noid st l ht he]
        obtain ⟨h1, h2, h3, h4, h5⟩ :=
          ih { st with scanned := st.scanned + 1, no_video_id := st.no_video_id + 1 } l
        refine ⟨?_, by simpa using h2, by simpa using h3, by simpa using h4, ?_⟩
        · rw [h1]; simp; omega
        · simp at h5 ⊢
          omega
      | some vid =>
        rw [passOneStep_cand st l ht he]
        obtain ⟨h1, h2, h3, h4, h5⟩ := ih { st with scanned := st.scanned + 1 } (l ++ [(f, vid)])
        refine ⟨?_, by simpa using h2, by simpa using h3, by simpa using h4, ?_⟩
        · rw [h1]; simp; omega
        · simp at h5 ⊢
          omega

theorem passTwo_fold (cat : Catalog) (dry : Bool) (wk : MediaFile → Bool) :
    ∀ (l : List (MediaFile × List Char)) (st : ScanStats)
      (w : List (MediaFile × List Char)),
      (List.foldl (passTwoStep cat dry wk) (st, w) l).1.scanned = st.scanned ∧
      (List.foldl (passTwoStep cat dry wk) (st, w) l).1.needs_enrichment =
        st.needs_enrichment ∧
      (List.foldl (passTwoStep cat dry wk) (st, w) l).1.no_video_id = st.no_video_id ∧
      (List.foldl (passTwoStep cat dry wk) (st, w) l).1.enriched +
          (List.foldl (passTwoStep cat dry wk) (st, w) l).1.failed =
        st.enriched + st.failed + l.length := by
  intro l
  induction l with
  | nil => intro st w; simp
  | cons c cs ih =>
    intro st w
    rw [List.foldl_cons]
    cases hm : get_track_metadata cat c.2 with
    | none =>
      rw [passTwoStep_nometa st w hm]
      obtain ⟨h1, h2, h3, h4⟩ := ih { st with failed := st.failed + 1 } w
      refine ⟨by simpa using h1, by simpa using h2, by simpa using h3, ?_⟩
      simp at h4 ⊢
      omega
    | some m =>
      cases hn : m.track_number with
      | none =>
        rw [passTwoStep_notrack st w hm hn]
        obtain ⟨h1, h2, h3, h4⟩ := ih { st with failed := st.failed + 1 } w
        refine ⟨by simpa using h1, by simpa using h2, by simpa using h3, ?_⟩
        simp at h4 ⊢
        omega
      | some n =>
        cases dry with
        | true =>
          rw [passTwoStep_dry st w hm hn]
          obtain ⟨h1, h2, h3, h4⟩ := ih { st with enriched := st.enriched + 1 } w
          refine ⟨by simpa using h1, by simpa using h2, by simpa using h3, ?_⟩
          simp at h4 ⊢
          omega
        | false =>
          cases hwk : wk c.1 with
          | true =>
            rw [passTwoStep_wet_ok st w hm hn hwk]
            obtain ⟨h1, h2, h3, h4⟩ :=
              ih { st with enriched := st.enriched + 1 } (w ++ [(c.1, trackStr n m.total_tracks)])
            refine ⟨by simpa using h1, by simpa using h2, by simpa using h3, ?_⟩
            simp at h4 ⊢
            omega
          | false =>
            rw [passTwoStep_wet_fail st w hm hn hwk]
            obtain ⟨h1, h2, h3, h4⟩ := ih { st with failed := st.failed + 1 } w
            refine ⟨by simpa using h1, by simpa using h2, by simpa using h3, ?_⟩
            simp at h4 ⊢
            omega

theorem scan_folder_stats (env : Env) (dry_run : Bool) :
    (scan_folder env dry_run).1.needs_enrichment =
      (scan_folder env dry_run).1.enriched + (scan_folder env dry_run).1.failed ∧
    (scan_folder env dry_run).1.needs_enrichment + (scan_folder env dry_run).1.no_video_id ≤
      (scan_folder env dry_run).1.scanned := by
  have s0a : stats0.scanned = 0 := rfl
  have s0c : stats0.enriched = 0 := rfl
  have s0d : stats0.failed = 0 := rfl
  have s0e : stats0.no_video_id = 0 := rfl
  have hnil : ([] : List (MediaFile × List Char)).length = 0 := rfl
  unfold scan_folder passOne
  by_cases hex : env.folderExists = false
  · rw [if_pos hex]
    exact ⟨rfl, by simp [stats0]⟩
  · rw [if_neg hex]
    by_cases hf : env.files = []
    · rw [if_pos hf]
      exact ⟨rfl, by simp [stats0]⟩
    · rw [if_neg hf]
      obtain ⟨p1, p2, p3, p4, p5⟩ := passOne_fold env.files stats0 []
      by_cases hp : (List.foldl passOneStep (stats0, []) env.files).2 = []
      · rw [if_pos hp, hp]
        rw [hp] at p5
        constructor
        · show ([] : List (MediaFile × List Char)).length =
            (List.foldl passOneStep (stats0, []) env.files).1.enriched +
              (List.foldl passOneStep (stats0, []) env.files).1.failed
          omega
        · show ([] : List (MediaFile × List Char)).length +
              (List.foldl passOneStep (stats0, []) env.files).1.no_video_id ≤
            (List.foldl passOneStep (stats0, []) env.files).1.scanned
          omega
      · rw [if_neg hp]
        obtain ⟨q1, q2, q3, q4⟩ := passTwo_fold env.cat dry_run env.writeOk
          ((List.foldl passOneStep (stats0, []) env.files).2)
          { (List.foldl passOneStep (stats0, []) env.files).1 with
            needs_enrichment := (List.foldl passOneStep (stats0, []) env.files).2.length } []
        have q2' : (List.foldl (passTwoStep env.cat dry_run env.writeOk)
            ({ (List.foldl passOneStep (stats0, []) env.files).1 with
              needs_enrichment := (List.foldl passOneStep (stats0, []) env.files).2.length }, [])
            ((List.foldl passOneStep (stats0, []) env.files).2)).1.needs_enrichment =
            (List.foldl passOneStep (stats0, []) env.files).2.length := q2
        have q1' : (List.foldl (passTwoStep env.cat dry_run env.writeOk)
            ({ (List.foldl passOneStep (stats0, []) env.files).1 with
              needs_enrichment := (List.foldl passOneStep (stats0, []) env.files).2.length }, [])
            ((List.foldl passOneStep (stats0, []) env.files).2)).1.scanned =
            (List.foldl passOneStep (stats0, []) env.files).1.scanned := q1
        have q3' : (List.foldl (passTwoStep env.cat dry_run env.writeOk)
            ({ (List.foldl passOneStep (stats0, []) env.files).1 with
              needs_enrichment := (List.foldl passOneStep (stats0, []) env.files).2.length }, [])
            ((List.foldl passOneStep (stats0, []) env.files).2)).1.no_video_id =
            (List.foldl passOneStep (stats0, []) env.files).1.no_video_id := q3
        have q4' : (List.foldl (passTwoStep env.cat dry_run env.writeOk)
            ({ (List.foldl passOneStep (stats0, []) env.files).1 with
              needs_enrichment := (List.foldl passOneStep (stats0, []) env.files).2.length }, [])
            ((List.foldl passOneStep (stats0, []) env.files).2)).1.enriched +
            (List.foldl (passTwoStep env.cat dry_run env.writeOk)
            ({ (List.foldl passOneStep (stats0, []) env.files).1 with
              needs_enrichment := (List.foldl passOneStep (stats0, []) env.files).2.length }, [])
            ((List.foldl passOneStep (stats0, []) env.files).2)).1.failed =
            (List.foldl passOneStep (stats0, []) env.files).1.enriched +
              (List.foldl passOneStep (stats0, []) env.files).1.failed +
              (List.foldl passOneStep (stats0, []) env.files).2.length := q4
        exact ⟨by omega, by omega⟩

theorem scan_folder_scanned (env : Env) (dry_run : Bool)
    (hex : env.folderExists = true) :
    (scan_folder env dry_run).1.scanned = env.files.length := by
  have s0a : stats0.scanned = 0 := rfl
  unfold scan_folder passOne
  rw [if_neg (by simp [hex])]
  by_cases hf : env.files = []
  · rw [if_pos hf]
    simp [stats0, hf]
  · rw [if_neg hf]
    obtain ⟨p1, _, _, _, _⟩ := passOne_fold env.files stats0 []
    by_cases hp : (List.foldl passOneStep (stats0, []) env.files).2 = []
    · rw [if_pos hp]
      show (List.foldl passOneStep (stats0, []) env.files).1.scanned = env.files.length
      omega
    · rw [if_neg hp]
      obtain ⟨q1, _, _, _⟩ := passTwo_fold env.cat dry_run env.writeOk
        ((List.foldl passOneStep (stats0, []) env.files).2)
        { (List.foldl passOneStep (stats0, []) env.files).1 with
          needs_enrichment := (List.foldl passOneStep (stats0, []) env.files).2.length } []
      have q1' : (List.foldl (passTwoStep env.cat dry_run env.writeOk)
          ({ (List.foldl passOneStep (stats0, []) env.files).1 with
            needs_enrichment := (List.foldl passOneStep (stats0, []) env.files).2.length }, [])
          ((List.foldl passOneStep (stats0, []) env.files).2)).1.scanned =
          (List.foldl passOneStep (stats0, []) env.files).1.scanned := q1
      omega

/-! ## Claim C6 -/

/-- C6: at every return of scan_folder, the stats satisfy both forms of
the claimed invariant: needs_enrichment equals enriched plus failed, and
scanned equals enriched plus failed plus no_video_id plus the implicit
already-tagged count scanned minus needs_enrichment minus no_video_id. -/
theorem c6_stats_invariant (env : Env) (dry_run : Bool) :
    (scan_folder env dry_run).1.needs_enrichment =
      (scan_folder env dry_run).1.enriched + (scan_folder env dry_run).1.failed ∧
    (scan_folder env dry_run).1.scanned =
      (scan_folder env dry_run).1.enriched + (scan_folder env dry_run).1.failed +
        (scan_folder env dry_run).1.no_video_id +
        ((scan_folder env dry_run).1.scanned -
          (scan_folder env dry_run).1.needs_enrichment -
          (scan_folder env dry_run).1.no_video_id) := by
  obtain ⟨h1, h2⟩ := scan_folder_stats env dry_run
  exact ⟨h1, by omega⟩

/-! ## Claim C7 -/

theorem passTwo_dry_writes (cat : Catalog) (wk : MediaFile → Bool) :
    ∀ (l : List (MediaFile × List Char)) (st : ScanStats)
      (w : List (MediaFile × List Char)),
      (List.foldl (passTwoStep cat true wk) (st, w) l).2 = w := by
  intro l
  induction l with
  | nil => intro st w; rfl
  | cons c cs ih =>
    intro st w
    rw [List.foldl_cons]
    cases hm : get_track_metadata cat c.2 with
    | none => rw [passTwoStep_nometa st w hm]; exact ih _ _
    | some m =>
      cases hn : m.track_number with
      | none => rw [passTwoStep_notrack st w hm hn]; exact ih _ _
      | some n => rw [passTwoStep_dry st w hm hn]; exact ih _ _

theorem passTwo_stats_dry_wet (cat : Catalog) (wk : MediaFile → Bool)
    (hwk : ∀ f, wk f = true) :
    ∀ (l : List (MediaFile × List Char)) (st : ScanStats)
      (w w' : List (MediaFile × List Char)),
      (List.foldl (passTwoStep cat false wk) (st, w) l).1 =
        (List.foldl (passTwoStep cat true wk) (st, w') l).1 := by
  intro l
  induction l with
  | nil => intro st w w'; rfl
  | cons c cs ih =>
    intro st w w'
    rw [List.foldl_cons, List.foldl_cons]
    cases hm : get_track_metadata cat c.2 with
    | none =>
      rw [passTwoStep_nometa st w hm, passTwoStep_nometa st w' hm]
      exact ih _ _ _
    | some m =>
      cases hn : m.track_number with
      | none =>
        rw [passTwoStep_notrack st w hm hn, passTwoStep_notrack st w' hm hn]
        exact ih _ _ _
      | some n =>
        rw [passTwoStep_wet_ok st w hm hn (hwk c.1), passTwoStep_dry st w' hm hn]
        exact ih _ _ _

/-- C7 counterexample: in an environment whose single candidate resolves
to a track number but whose tag write fails, the wet scan counts the file
as failed while the dry scan counts it as enriched, so the two runs do not
produce identical stats. -/
theorem c7_counterexample :
    (scan_folder envNoWrite false).1 ≠ (scan_folder envNoWrite true).1 := by decide

/-- C7 (amended): a dry run performs no tag writes at all, and produces
stats identical to a wet run over the same inputs provided every attempted
tag write succeeds; when a write fails the wet run counts that file as
failed while the dry run counts it as enriched. -/
theorem c7_amended :
    (∀ env : Env, (scan_folder env true).2 = []) ∧
    (∀ env : Env, (∀ f, env.writeOk f = true) →
      (scan_folder env true).1 = (scan_folder env false).1) := by
  constructor
  · intro env
    unfold scan_folder
    by_cases hex : env.folderExists = false
    · rw [if_pos hex]
    · rw [if_neg hex]
      by_cases hf : env.files = []
      · rw [if_pos hf]
      · rw [if_neg hf]
        by_cases hp : (passOne env.files).2 = []
        · rw [if_pos hp]
        · rw [if_neg hp]
          exact passTwo_dry_writes env.cat env.writeOk _ _ _
  · intro env hwk
    unfold scan_folder
    by_cases hex : env.folderExists = false
    · rw [if_pos hex, if_pos hex]
    · rw [if_neg hex, if_neg hex]
      by_cases hf : env.files = []
      · rw [if_pos hf, if_pos hf]
      · rw [if_neg hf, if_neg hf]
        by_cases hp : (passOne env.files).2 = []
        · rw [if_pos hp, if_pos hp]
        · rw [if_neg hp, if_neg hp]
          exact (passTwo_stats_dry_wet env.cat env.writeOk hwk _ _ _ _).symm

/-- C7 witness: in an environment whose writes all succeed, the dry run
writes nothing and its stats match the wet run. -/
theorem c7_witness :
    (scan_folder envOk true).2 = [] ∧
    (scan_folder envOk true).1 = (scan_folder envOk false).1 :=
  ⟨c7_amended.1 envOk, c7_amended.2 envOk (fun _ => rfl)⟩

/-! ## Claim C9 -/

/-- C9 counterexample: with the target folder absent, the scan returns
normally with zero stats and no writes, and the daemon still performs a
second scan — absence of the target directory does not terminate the
process. -/
theorem c9_counterexample :
    run_daemon_stats envAbsent false 2 = [stats0, stats0] ∧
    scan_folder envAbsent false = (stats0, []) := by decide

/-- C9 (amended): absence of the target directory never terminates the
process: every daemon iteration over an absent folder completes and yields
the zero stats, and when the folder exists a scan always completes over
the whole file list (per-file failures never abort it), counting every
file. -/
theorem c9_amended :
    (∀ (env : Env) (dry : Bool) (n : Nat), env.folderExists = false →
      run_daemon_stats env dry n = List.replicate n stats0) ∧
    (∀ (env : Env) (dry : Bool), env.folderExists = true →
      (scan_folder env dry).1.scanned = env.files.length) := by
  constructor
  · intro env dry n hex
    have hscan : scan_folder env dry = (stats0, []) := by
      unfold scan_folder
      rw [if_pos hex]
    induction n with
    | zero => rfl
    | succ k ih => simp only [run_daemon_stats, hscan, ih, List.replicate_succ]
  · exact fun env dry hex => scan_folder_scanned env dry hex

/-- C9 witness: three daemon iterations over an absent folder, and a full
count over an existing folder. -/
theorem c9_witness :
    run_daemon_stats envAbsent false 3 = List.replicate 3 stats0 ∧
    (scan_folder envOk false).1.scanned = 1 :=
  ⟨c9_amended.1 envAbsent false 3 rfl, c9_amended.2 envOk false rfl⟩

/-! ## Claim C10 -/

theorem passOne_no_video_id :
    ∀ (files : List MediaFile) (st : ScanStats) (l : List (MediaFile × List Char)),
      (List.foldl passOneStep (st, l) files).1.no_video_id =
        st.no_video_id + (files.filter (fun f =>
          !truthy (get_existing_track_number f.tag) &&
            (extract_video_id f.name).isNone)).length := by
  intro files
  induction files with
  | nil => intro st l; simp
  | cons f fs ih =>
    intro st l
    rw [List.foldl_cons, List.filter_cons]
    by_cases ht : truthy (get_existing_track_number f.tag) = true
    · rw [passOneStep_tagged st l ht, if_neg (by simp [ht]), ih]
    · rw [Bool.not_eq_true] at ht
      cases he : extract_video_id f.name with
      | none =>
        rw [passOneStep_noid st l ht he, if_pos (by simp [ht, he]), ih]
        simp
        omega
      | some vid =>
        rw [passOneStep_cand st l ht he, if_neg (by simp [ht, he]), ih]

/-- C10: in the first pass the already-tagged check runs before identifier
extraction: scanned counts every file, while no_video_id counts exactly
the files that are both untagged and without an extractable identifier —
a tagged file is never counted in no_video_id even when its name has no
identifier. -/
theorem c10_tagged_priority (files : List MediaFile) :
    (passOne files).1.scanned = files.length ∧
    (passOne files).1.no_video_id =
      (files.filter (fun f => !truthy (get_existing_track_number f.tag) &&
        (extract_video_id f.name).isNone)).length := by
  constructor
  · have h := (passOne_fold files stats0 []).1
    simpa [passOne, stats0] using h
  · have h := passOne_no_video_id files stats0 []
    simpa [passOne, stats0] using h

end Enricher
